import Mathlib

/-!
Verification development for the personalization-and-document-assembly
pipeline: the arc text layout engine, the raster compositor entry points,
the paired page assembler (process_orders.py), and the merge / flatten /
archive pipeline (gui_app.py).

Machine reals (Python floats) are modelled over an arbitrary linear ordered
field; Python ints over ℤ/ℕ; fallible I/O returns Option with environment
flags for the operations that can fail (font loading, rasterization, disk
writes); file systems are explicit maps from paths to byte lists.
-/

set_option maxRecDepth 10000

/-! ## Python string semantics -/

/-- Whitespace characters stripped by the Python str.strip() default
(ASCII subset: space, tab, newline, carriage return, vertical tab, form feed). -/
def isPyWhitespace (c : Char) : Bool :=
  c = ' ' || c = '\t' || c = '\n' || c = '\r' || c = '\x0b' || c = '\x0c'

/-- Python name.strip(): remove leading and trailing whitespace. -/
def pyStrip (s : String) : String :=
  String.mk (((s.data.dropWhile isPyWhitespace).reverse.dropWhile isPyWhitespace).reverse)

/-! ## Arc layout engine

draw_text_on_arc and draw_boat_text_on_arc from process_orders.py.
The font is environmental, so a text is represented by its list of
per-character advance widths; cosF, sinF and piK stand for math.cos,
math.sin and math.pi (instantiated with the real functions where a
theorem needs them). -/

/-- One placed glyph: its mid-arc angle, paste position and rotation. -/
structure GlyphPlacement (K : Type) where
  theta : K
  x : K
  y : K
  rotDeg : K
deriving DecidableEq

/-- Result of an arc layout call: the start angle and total angular span of
the text, and the per-glyph placements. -/
structure ArcResult (K : Type) where
  thetaStart : K
  thetaTotal : K
  glyphs : List (GlyphPlacement K)
deriving DecidableEq

section ArcEngine

variable {K : Type} [LinearOrderedField K]

/-- math.radians. -/
def radiansK (piK d : K) : K := d * piK / 180

/-- math.degrees. -/
def degreesK (piK t : K) : K := t * 180 / piK

/-- Per-glyph advances: glyph width plus kerning for every glyph but the last
(advances list comprehension in both arc functions). -/
def glyphAdvances (kerning : K) : List K → List K
  | [] => []
  | [w] => [w]
  | w :: ws => (w + kerning) :: glyphAdvances kerning ws

/-- Per-glyph loop of draw_text_on_arc: the glyph angle uses the base radius,
the paste position uses a radius grown by (i - 5) for glyph indices i >= 6,
shifted by the length-based x and y offsets. -/
def magnetGlyphLoop (cosF sinF : K → K) (piK cx cy radius xOff yOff thetaStart : K)
    (outward : Bool) : ℕ → K → List K → List (GlyphPlacement K)
  | _, _, [] => []
  | i, sCum, adv :: rest =>
    let sMid := sCum + adv / 2
    let theta := thetaStart + sMid / radius
    let r := if 6 ≤ i then radius + ((i : K) - 5) else radius
    { theta := theta
      x := cx + r * cosF theta - xOff
      y := cy - r * sinF theta - yOff
      rotDeg := degreesK piK theta - (if outward then (90 : K) else -90) } ::
      magnetGlyphLoop cosF sinF piK cx cy radius xOff yOff thetaStart outward (i + 1) (sCum + adv) rest

/-- draw_text_on_arc: the asymmetric character-pair variant, with
length-adaptive radius shrinking, x/y offsets and base-angle adjustment for
texts longer than 6 characters.  The Python float literals .8 and .5 are the
rationals 4/5 and 1/2.  Returns none when radius <= 0 (ValueError). -/
def draw_text_on_arc (cosF sinF : K → K) (piK : K) (widths : List K)
    (kerning cx cy radius angleDeg : K) (outward : Bool) : Option (ArcResult K) :=
  if radius ≤ 0 then none
  else
    let advances := glyphAdvances kerning widths
    let textWidth := advances.sum
    let L := widths.length
    let currentRadius :=
      if 10 < L then radius + ((L : K) - 10) * (-11)
      else if 6 < L then radius + ((L : K) - 6) * (-6)
      else radius
    let yOff := if 6 < L then ((L : K) - 6) * 2 else 0
    let xOff := if 6 < L then ((L : K) - 6) * (4 / 5) else 0
    let angleAdj :=
      if 10 < L then ((L : K) - 10) * 1
      else if 6 < L then ((L : K) - 5) * (1 / 2)
      else 0
    let thetaTotal := textWidth / currentRadius
    let thetaStart := radiansK piK (angleDeg + angleAdj) - thetaTotal / 2
    some { thetaStart := thetaStart
           thetaTotal := thetaTotal
           glyphs := magnetGlyphLoop cosF sinF piK cx cy radius xOff yOff thetaStart outward 0 0 advances }

/-- Per-glyph loop of draw_boat_text_on_arc: constant radius for every glyph. -/
def boatGlyphLoop (cosF sinF : K → K) (piK cx cy radius thetaStart : K)
    (outward : Bool) : K → List K → List (GlyphPlacement K)
  | _, [] => []
  | sCum, adv :: rest =>
    let sMid := sCum + adv / 2
    let theta := thetaStart + sMid / radius
    { theta := theta
      x := cx + radius * cosF theta
      y := cy - radius * sinF theta
      rotDeg := degreesK piK theta - (if outward then (90 : K) else -90) } ::
      boatGlyphLoop cosF sinF piK cx cy radius thetaStart outward (sCum + adv) rest

/-- draw_boat_text_on_arc: the symmetric single-slot variant, no adjustments.
Returns none when radius <= 0 (ValueError). -/
def draw_boat_text_on_arc (cosF sinF : K → K) (piK : K) (widths : List K)
    (kerning cx cy radius angleDeg : K) (outward : Bool) : Option (ArcResult K) :=
  if radius ≤ 0 then none
  else
    let advances := glyphAdvances kerning widths
    let textWidth := advances.sum
    let thetaTotal := textWidth / radius
    let thetaStart := radiansK piK angleDeg - thetaTotal / 2
    some { thetaStart := thetaStart
           thetaTotal := thetaTotal
           glyphs := boatGlyphLoop cosF sinF piK cx cy radius thetaStart outward 0 advances }

/-- Angular midpoint of the span covered by an arc layout result. -/
def arcAngularCenter : Option (ArcResult K) → Option K
  | none => none
  | some r => some (r.thetaStart + r.thetaTotal / 2)

/-- Number of glyph placements of an arc layout result. -/
def arcGlyphCount : Option (ArcResult K) → Option ℕ
  | none => none
  | some r => some r.glyphs.length

end ArcEngine

/-! ## Boat text settings (length-adaptive scaling), process_orders.py -/

def BOAT_TEXT_CENTER : ℤ × ℤ := (950, 4220)

def BOAT_TEXT_RADIUS : ℤ := 2700

def BOAT_TEXT_REFERENCE_LENGTH : ℤ := 16

def BOAT_TEXT_BASE_FONT_SIZE : ℤ := 120

def BOAT_TEXT_FONT_SCALE_PER_CHAR : ℤ := 4

def BOAT_TEXT_MIN_FONT_SIZE : ℤ := 60

def BOAT_TEXT_MAX_FONT_SIZE : ℤ := 180

def BOAT_TEXT_RADIUS_SCALE_PER_CHAR : ℤ := 50

def BOAT_TEXT_Y_SCALE_PER_CHAR : ℤ := 50

/-- calculate_boat_text_settings: font size, radius and center, scaled by the
difference between the name length and the reference length (all Python ints).
Returns (fontSize, radius, (centerX, centerY)). -/
def calculate_boat_text_settings (name : String) : ℤ × ℤ × (ℤ × ℤ) :=
  let lengthDiff : ℤ := (name.length : ℤ) - BOAT_TEXT_REFERENCE_LENGTH
  let fontSize0 := BOAT_TEXT_BASE_FONT_SIZE - lengthDiff * BOAT_TEXT_FONT_SCALE_PER_CHAR
  let fontSize := max BOAT_TEXT_MIN_FONT_SIZE (min BOAT_TEXT_MAX_FONT_SIZE fontSize0)
  let radius := BOAT_TEXT_RADIUS + lengthDiff * BOAT_TEXT_RADIUS_SCALE_PER_CHAR
  let centerY := BOAT_TEXT_CENTER.2 + lengthDiff * BOAT_TEXT_Y_SCALE_PER_CHAR
  (fontSize, radius, (BOAT_TEXT_CENTER.1, centerY))

/-- Modelled from the spec: clamp(x, lo, hi) as written in the length-adaptive
scaling rule, for comparison against the code formula. -/
def clampSpec (lo hi x : ℤ) : ℤ := max lo (min hi x)

/-! ## Raster compositor entry points (create_personalized_image /
create_personalized_boat_image), modelled over an explicit file system -/

/-- Raster image file contents; the empty list stands for a missing or
zero-byte file. -/
abbrev ImageBytes := List Nat

/-- File system for image files: path to contents. -/
abbrev ImgFS := String → ImageBytes

/-- Write a file. -/
def fsWrite (fs : ImgFS) (p : String) (v : ImageBytes) : ImgFS :=
  fun q => if q = p then v else fs q

/-- create_personalized_image.  On an empty or whitespace-only name the source
file is copied verbatim to the output path; otherwise the environmental
rendering pipeline (font load, arc layout, composite) produces the output.
none models the RuntimeError raised when the output is missing or empty, or
the exception from opening a missing source. -/
def create_personalized_image (render : String → ImageBytes → ImageBytes)
    (name imagePath outputPath : String) (fs : ImgFS) : Option ImgFS :=
  if name = "" ∨ pyStrip name = "" then
    let fs1 := fsWrite fs outputPath (fs imagePath)
    if (fs1 outputPath).length = 0 then none else some fs1
  else
    if (fs imagePath).length = 0 then none
    else
      let fs1 := fsWrite fs outputPath (render name (fs imagePath))
      if (fs1 outputPath).length = 0 then none else some fs1

/-- create_personalized_boat_image: same structure; the non-empty branch draws
the reversed name with the scaled boat settings (all inside render). -/
def create_personalized_boat_image (render : String → ImageBytes → ImageBytes)
    (name imagePath outputPath : String) (fs : ImgFS) : Option ImgFS :=
  if name = "" ∨ pyStrip name = "" then
    let fs1 := fsWrite fs outputPath (fs imagePath)
    if (fs1 outputPath).length = 0 then none else some fs1
  else
    if (fs imagePath).length = 0 then none
    else
      let fs1 := fsWrite fs outputPath (render (String.mk name.data.reverse) (fs imagePath))
      if (fs1 outputPath).length = 0 then none else some fs1

/-! ## Paired page assembly (process_all_orders, magnet PDF loop) -/

/-- The magnet pairing loop: for i in range(0, n, 2), a pair (images[i],
images[i+1]) is emitted when i+1 < n; an odd trailing artifact is returned
separately as the reported, unplaced leftover. -/
def pairUpMagnets {α : Type} : List α → List (α × α) × Option α
  | [] => ([], none)
  | [a] => ([], some a)
  | a :: b :: rest =>
    let next := pairUpMagnets rest
    ((a, b) :: next.1, next.2)

/-! ## Flatten pipeline (flatten_pdf_in_place and its caller loop, gui_app.py) -/

/-- A PDF document: page contents (a Nat per page) and its on-disk size. -/
structure PdfDoc where
  pages : List Nat
  fileSize : Nat
deriving DecidableEq

/-- Environment for one flatten call: whether fitz.open, the per-page pixmap
rendering, and the save of the temp file succeed. -/
structure FlattenEnv where
  openOk : Bool
  renderOk : Bool
  saveOk : Bool
deriving DecidableEq

/-- flatten_pdf_in_place.  The flattened replacement is built in a temp file
and swapped in with os.replace only after its page count is verified, so on
every failure the original document is returned unchanged with result false.
raster models get_pixmap plus insert_image at the fixed DPI. -/
def flatten_pdf_in_place (raster : Nat → Nat) (env : FlattenEnv) :
    Option PdfDoc → Option PdfDoc × Bool
  | none => (none, false)
  | some f =>
    if f.fileSize = 0 then (some f, false)
    else if !env.openOk then (some f, false)
    else if f.pages.length = 0 then (some f, false)
    else if !env.renderOk then (some f, false)
    else if !env.saveOk then (some f, false)
    else (some { pages := f.pages.map raster, fileSize := f.pages.length + 1 }, true)

/-- The caller loop over the batch (STEP 2 of process_orders_thread): flatten
each page in place; a failed page stays in the list unflattened and its index
is recorded in the warning list (failed_flattening). -/
def flattenLoop (raster : Nat → Nat) (envs : ℕ → FlattenEnv) :
    ℕ → List PdfDoc → List PdfDoc × List ℕ
  | _, [] => ([], [])
  | i, f :: rest =>
    let step := flatten_pdf_in_place raster (envs i) (some f)
    let next := flattenLoop raster envs (i + 1) rest
    (step.1.getD f :: next.1, if step.2 then next.2 else i :: next.2)

/-- FlattenEach stage over the whole batch, starting at index 0. -/
def flattenStage (raster : Nat → Nat) (envs : ℕ → FlattenEnv) (files : List PdfDoc) :
    List PdfDoc × List ℕ :=
  flattenLoop raster envs 0 files

/-! ## Merge pipeline (merge_pdfs, gui_app.py) -/

/-- One merge source file as the merge stage observes it: present on disk,
its size, its page count (none when PdfReader raises), and the md5 content
digest of its bytes. -/
structure SrcPdf where
  present : Bool
  fileSize : Nat
  pageCount : Option Nat
  digest : Nat
deriving DecidableEq

/-- Step 1 pre-validation of merge_pdfs: the file exists, is non-empty, is
readable and has at least one page. -/
def prevalidate_ok (f : SrcPdf) : Bool :=
  f.present && f.fileSize != 0 &&
    (match f.pageCount with
     | none => false
     | some n => n != 0)

/-- Outcome of a completed merge_pdfs run (the function returned True). -/
structure MergeResult where
  masterPages : ℕ
  duplicateFlagged : Bool
deriving DecidableEq

/-- The duplicate-source scan after merging: a digest appearing at two or more
master pages is flagged (hash_to_pages groups of size greater than one). -/
def duplicate_digest_scan (digests : List Nat) : Bool :=
  digests.any fun h => 2 ≤ digests.count h

/-- merge_pdfs.  Pre-validation filters the sources; one page (page 0) is
appended to the writer per valid source; the duplicate scan flags repeated
digests without aborting; writing the master and reading it back yields
writtenPageCount pages, and a mismatch with the pages actually added is a
raised exception (none, merge_pdfs returns False).  none is also the
no-valid-sources failure. -/
def merge_pdfs (files : List SrcPdf) (writtenPageCount : ℕ) : Option MergeResult :=
  let valid := files.filter prevalidate_ok
  if valid.isEmpty then none
  else
    let finalPageCount := valid.length
    if writtenPageCount ≠ finalPageCount then none
    else some { masterPages := writtenPageCount
                duplicateFlagged := duplicate_digest_scan (valid.map SrcPdf.digest) }

/-! ## Archive stage (cleanup_old_pdfs, gui_app.py) -/

/-- File names as character lists (Python compares paths by code points). -/
abbrev FileName := List Char

/-- Lexicographic code-point order on file names (Python string <=). -/
def strLe : FileName → FileName → Bool
  | [], _ => true
  | _ :: _, [] => false
  | a :: as, b :: bs => if a = b then strLe as bs else decide (a < b)

/-- Python str.startswith on character lists. -/
def strStartsWith : FileName → FileName → Bool
  | _, [] => true
  | [], _ :: _ => false
  | a :: as, b :: bs => a = b && strStartsWith as bs

/-- Python str.endswith on character lists. -/
def strEndsWith (s p : FileName) : Bool := strStartsWith s.reverse p.reverse

/-- A directory entry: name and modification time. -/
structure FsFile where
  name : FileName
  mtime : ℕ
deriving DecidableEq

def orderOutputTag : FileName := "order_output_".data

def masterTag : FileName := "MASTER_ORDER_".data

def pdfExt : FileName := ".pdf".data

/-- A per-batch PDF picked up by the archive move (order_output_ or
MASTER_ORDER_ prefix, .pdf suffix). -/
def isBatchPdf (n : FileName) : Bool :=
  (strStartsWith n orderOutputTag || strStartsWith n masterTag) && strEndsWith n pdfExt

/-- An archived master document. -/
def isMasterPdf (n : FileName) : Bool :=
  strStartsWith n masterTag && strEndsWith n pdfExt

/-- First phase of cleanup_old_pdfs: move every batch PDF from the working
directory into pdf_archive, overwriting same-named archive entries. -/
def archiveMoveStage (cwd archive : List FsFile) : List FsFile × List FsFile :=
  let toMove := cwd.filter fun f => isBatchPdf f.name
  let cwdRest := cwd.filter fun f => !isBatchPdf f.name
  let archiveKept := archive.filter fun a => !(toMove.any fun m => m.name = a.name)
  (cwdRest, archiveKept ++ toMove)

/-- Descending (mtime, name) order: archive_masters.sort(reverse=True) on
(mtime, path) tuples. -/
def newerEq (a b : FsFile) : Prop :=
  b.mtime < a.mtime ∨ (b.mtime = a.mtime ∧ strLe b.name a.name)

instance : DecidableRel newerEq := fun a b => by unfold newerEq; infer_instance

/-- The fixed retention count for archived masters. -/
def RETAIN_COUNT : ℕ := 10

/-- The archive's master documents, newest first. -/
def sortedMasters (archive : List FsFile) : List FsFile :=
  List.insertionSort newerEq (archive.filter fun f => isMasterPdf f.name)

/-- Second phase of cleanup_old_pdfs: delete the archived masters beyond the
RETAIN_COUNT most recent. -/
def retentionStage (archive : List FsFile) : List FsFile :=
  let deleted := (sortedMasters archive).drop RETAIN_COUNT
  archive.filter fun f => !(deleted.any fun d => d.name = f.name)

/-- cleanup_old_pdfs: move the batch PDFs into the archive, then prune old
masters.  Returns the resulting (working directory, archive directory). -/
def cleanup_old_pdfs (cwd archive : List FsFile) : List FsFile × List FsFile :=
  let moved := archiveMoveStage cwd archive
  (moved.1, retentionStage moved.2)

/-! ## Concrete fixtures used by the witness theorems -/

def renderFx : String → ImageBytes → ImageBytes := fun _ img => 0 :: img

def imgFsFx : ImgFS := fun p => if p = "src.png" then [3, 1, 4] else []

def pdfFx1 : PdfDoc := { pages := [5], fileSize := 4 }

def pdfFx2 : PdfDoc := { pages := [6], fileSize := 9 }

def goodEnvFx : FlattenEnv := { openOk := true, renderOk := true, saveOk := true }

def badEnvFx : FlattenEnv := { openOk := true, renderOk := false, saveOk := true }

def envsFx : ℕ → FlattenEnv := fun i => if i = 0 then badEnvFx else goodEnvFx

def pdfFilesFx : List PdfDoc := [pdfFx1, pdfFx2]

def srcValidFx : SrcPdf := { present := true, fileSize := 10, pageCount := some 1, digest := 7 }

def srcMissingFx : SrcPdf := { present := false, fileSize := 0, pageCount := none, digest := 8 }

def srcValidFx2 : SrcPdf := { present := true, fileSize := 5, pageCount := some 1, digest := 7 }

def mergeFilesFx : List SrcPdf := [srcValidFx, srcMissingFx]

def dupFilesFx : List SrcPdf := [srcValidFx, srcValidFx2]

def fsFileFx (s : String) (t : ℕ) : FsFile := { name := s.data, mtime := t }

def cwdFx : List FsFile :=
  [fsFileFx "MASTER_ORDER_20260101_000000.pdf" 100,
   fsFileFx "order_output_20260101_000000_1.pdf" 99,
   fsFileFx "notes.txt" 5]

def archiveFx : List FsFile :=
  (List.range 10).map fun i => fsFileFx ("MASTER_ORDER_old_" ++ toString i ++ ".pdf") i

def flatFx1 : PdfDoc := { pages := [5], fileSize := 2 }

/-! ## Helper lemmas -/

theorem fsWrite_same (fs : ImgFS) (p : String) (v : ImageBytes) : fsWrite fs p v p = v := by
  simp [fsWrite]

theorem fsWrite_other (fs : ImgFS) (p q : String) (v : ImageBytes) (h : q ≠ p) :
    fsWrite fs p v q = fs q := by
  simp [fsWrite, h]

/-! ## C3: empty displayName gives a verbatim copy of the source artwork -/

/-- C3: for every personalization request whose displayName is the empty
string, the produced artifact is a verbatim copy of the source artwork (no
rendering is performed, for any rendering environment), and the source image
is never mutated; this holds for both create_personalized_image and
create_personalized_boat_image. -/
theorem empty_name_emits_verbatim_copy
    (render renderB : String → ImageBytes → ImageBytes)
    (name imagePath outputPath : String) (fs fsA fsB : ImgFS)
    (hname : name = "") (hne : imagePath ≠ outputPath) :
    (create_personalized_image render name imagePath outputPath fs = some fsA →
      fsA outputPath = fs imagePath ∧ fsA imagePath = fs imagePath ∧
      ∀ p, p ≠ outputPath → fsA p = fs p) ∧
    (create_personalized_boat_image renderB name imagePath outputPath fs = some fsB →
      fsB outputPath = fs imagePath ∧ fsB imagePath = fs imagePath ∧
      ∀ p, p ≠ outputPath → fsB p = fs p) := by
  subst hname
  constructor
  · intro h
    rw [create_personalized_image, if_pos (Or.inl rfl)] at h
    dsimp only at h
    split at h
    · exact absurd h (by simp)
    · have hfs : fsA = fsWrite fs outputPath (fs imagePath) := by
        simpa using h.symm
      subst hfs
      exact ⟨fsWrite_same .., fsWrite_other fs outputPath imagePath _ hne,
        fun p hp => fsWrite_other fs outputPath p _ hp⟩
  · intro h
    rw [create_personalized_boat_image, if_pos (Or.inl rfl)] at h
    dsimp only at h
    split at h
    · exact absurd h (by simp)
    · have hfs : fsB = fsWrite fs outputPath (fs imagePath) := by
        simpa using h.symm
      subst hfs
      exact ⟨fsWrite_same .., fsWrite_other fs outputPath imagePath _ hne,
        fun p hp => fsWrite_other fs outputPath p _ hp⟩

/-- Witness for C3: a concrete empty-name run copies src.png to out.png and
leaves src.png untouched. -/
theorem empty_name_emits_verbatim_copy_witness :
    fsWrite imgFsFx "out.png" (imgFsFx "src.png") "out.png" = imgFsFx "src.png" ∧
    fsWrite imgFsFx "out.png" (imgFsFx "src.png") "src.png" = imgFsFx "src.png" := by
  have h := (empty_name_emits_verbatim_copy renderFx renderFx "" "src.png" "out.png" imgFsFx
      (fsWrite imgFsFx "out.png" (imgFsFx "src.png"))
      (fsWrite imgFsFx "out.png" (imgFsFx "src.png")) rfl (by decide)).1 rfl
  exact ⟨h.1, h.2.1⟩

/-! ## C10: whitespace-only displayName behaves exactly as the empty one -/

/-- C10: for every displayName whose Python strip() is empty, both
personalization entry points take the verbatim-copy path: the run is
identical to an empty displayName run under any rendering environment, and
the emitted artifact is a byte-for-byte copy of the source artwork. -/
theorem whitespace_name_behaves_as_empty
    (render render2 renderB renderB2 : String → ImageBytes → ImageBytes)
    (name imagePath outputPath : String) (fs : ImgFS)
    (hws : pyStrip name = "") :
    create_personalized_image render name imagePath outputPath fs =
      create_personalized_image render2 "" imagePath outputPath fs ∧
    create_personalized_boat_image renderB name imagePath outputPath fs =
      create_personalized_boat_image renderB2 "" imagePath outputPath fs ∧
    (∀ fsA, create_personalized_image render name imagePath outputPath fs = some fsA →
      fsA outputPath = fs imagePath) ∧
    (∀ fsB, create_personalized_boat_image renderB name imagePath outputPath fs = some fsB →
      fsB outputPath = fs imagePath) := by
  have e1 : create_personalized_image render name imagePath outputPath fs =
      (if (fsWrite fs outputPath (fs imagePath) outputPath).length = 0 then none
       else some (fsWrite fs outputPath (fs imagePath))) := by
    rw [create_personalized_image, if_pos (Or.inr hws)]
  have e2 : create_personalized_boat_image renderB name imagePath outputPath fs =
      (if (fsWrite fs outputPath (fs imagePath) outputPath).length = 0 then none
       else some (fsWrite fs outputPath (fs imagePath))) := by
    rw [create_personalized_boat_image, if_pos (Or.inr hws)]
  refine ⟨?_, ?_, ?_, ?_⟩
  · rw [e1, create_personalized_image, if_pos (Or.inl rfl)]
  · rw [e2, create_personalized_boat_image, if_pos (Or.inl rfl)]
  · intro fsA h
    rw [e1] at h
    split at h
    · exact absurd h (by simp)
    · have : fsA = fsWrite fs outputPath (fs imagePath) := by simpa using h.symm
      rw [this, fsWrite_same]
  · intro fsB h
    rw [e2] at h
    split at h
    · exact absurd h (by simp)
    · have : fsB = fsWrite fs outputPath (fs imagePath) := by simpa using h.symm
      rw [this, fsWrite_same]

/-- Witness for C10: a three-space name runs identically to the empty name,
even under different rendering environments. -/
theorem whitespace_name_behaves_as_empty_witness :
    create_personalized_image renderFx "   " "src.png" "out.png" imgFsFx =
      create_personalized_image (fun _ img => img) "" "src.png" "out.png" imgFsFx :=
  (whitespace_name_behaves_as_empty renderFx (fun _ img => img) renderFx renderFx
    "   " "src.png" "out.png" imgFsFx (by decide)).1

/-! ## C7: length-adaptive scaling of the boat text settings -/

/-- Counterexample for C7: the claim says a name at or under the reference
length keeps the unscaled base font size, radius and center, but the code
applies the scaling formula for negative length differences too; for the
6-character name Johnny the computed settings are (160, 2200, (950, 3720)),
not the base (120, 2700, (950, 4220)). -/
theorem c7_counterexample :
    "Johnny".length ≤ 16 ∧
    calculate_boat_text_settings "Johnny" ≠
      (BOAT_TEXT_BASE_FONT_SIZE, BOAT_TEXT_RADIUS, BOAT_TEXT_CENTER) := by
  decide

/-- C7 (amended): the scaling formulas apply to every length difference d,
not only d over zero: fontSize = clamp(base - d*fontScalePerChar, min, max),
radius = base + d*radiusScalePerChar, and the vertical center shifts by
d*yScalePerChar, for positive and negative d alike; the unscaled base values
are produced exactly when the name length equals the reference length. -/
theorem boat_settings_scale_for_every_length (name : String) :
    (0 < (name.length : ℤ) - 16 → calculate_boat_text_settings name =
      (clampSpec 60 180 (120 - ((name.length : ℤ) - 16) * 4),
       2700 + ((name.length : ℤ) - 16) * 50,
       (950, 4220 + ((name.length : ℤ) - 16) * 50))) ∧
    ((name.length : ℤ) - 16 = 0 →
      calculate_boat_text_settings name = (120, 2700, (950, 4220))) ∧
    ((name.length : ℤ) - 16 < 0 → calculate_boat_text_settings name =
      (clampSpec 60 180 (120 - ((name.length : ℤ) - 16) * 4),
       2700 + ((name.length : ℤ) - 16) * 50,
       (950, 4220 + ((name.length : ℤ) - 16) * 50))) := by
  have hgen : calculate_boat_text_settings name =
      (clampSpec 60 180 (120 - ((name.length : ℤ) - 16) * 4),
       2700 + ((name.length : ℤ) - 16) * 50,
       (950, 4220 + ((name.length : ℤ) - 16) * 50)) := by
    simp only [calculate_boat_text_settings, clampSpec, BOAT_TEXT_REFERENCE_LENGTH,
      BOAT_TEXT_BASE_FONT_SIZE, BOAT_TEXT_FONT_SCALE_PER_CHAR, BOAT_TEXT_MIN_FONT_SIZE,
      BOAT_TEXT_MAX_FONT_SIZE, BOAT_TEXT_RADIUS, BOAT_TEXT_RADIUS_SCALE_PER_CHAR,
      BOAT_TEXT_CENTER, BOAT_TEXT_Y_SCALE_PER_CHAR]
  refine ⟨fun _ => hgen, fun h0 => ?_, fun _ => hgen⟩
  rw [hgen]
  have h16 : (name.length : ℤ) = 16 := by omega
  rw [h16]
  decide

/-- Witness for C7: the 23-character name of concrete scenario B scales down
to font 92 (not clamped), radius 3050, center y 4570; the 16-character
reference name keeps the base values; the short name Johnny scales up. -/
theorem boat_settings_scale_for_every_length_witness :
    calculate_boat_text_settings "The Christopher Family" =
      (clampSpec 60 180 (120 - (("The Christopher Family".length : ℤ) - 16) * 4),
       2700 + (("The Christopher Family".length : ℤ) - 16) * 50,
       (950, 4220 + (("The Christopher Family".length : ℤ) - 16) * 50)) ∧
    calculate_boat_text_settings "The Smith Family" = (120, 2700, (950, 4220)) ∧
    calculate_boat_text_settings "Johnny" =
      (clampSpec 60 180 (120 - (("Johnny".length : ℤ) - 16) * 4),
       2700 + (("Johnny".length : ℤ) - 16) * 50,
       (950, 4220 + (("Johnny".length : ℤ) - 16) * 50)) :=
  ⟨(boat_settings_scale_for_every_length "The Christopher Family").1 (by decide),
   (boat_settings_scale_for_every_length "The Smith Family").2.1 (by decide),
   (boat_settings_scale_for_every_length "Johnny").2.2 (by decide)⟩

/-! ## C4: paired assembly emits n / 2 pages, skips the odd leftover -/

theorem pairUpMagnets_rec {α : Type} {motive : List α → Prop} (h0 : motive [])
    (h1 : ∀ a, motive [a])
    (h2 : ∀ a b rest, motive rest → motive (a :: b :: rest)) :
    ∀ l, motive l
  | [] => h0
  | [a] => h1 a
  | a :: b :: rest => h2 a b rest (pairUpMagnets_rec h0 h1 h2 rest)

/-- C4: for a list of n generated paired-mode artifacts the assembler emits
exactly n / 2 pairs, consuming the artifacts in consecutive order; an odd
final artifact is never placed but is returned as the reported leftover, and
the loop is total (never crashes). -/
theorem paired_assembly_emits_halved_pages {α : Type} (artifacts : List α) :
    (pairUpMagnets artifacts).1.length = artifacts.length / 2 ∧
    (pairUpMagnets artifacts).1.flatMap (fun p => [p.1, p.2]) =
      artifacts.take (2 * (artifacts.length / 2)) ∧
    (pairUpMagnets artifacts).2 =
      (if artifacts.length % 2 = 0 then none else artifacts.getLast?) := by
  induction artifacts using pairUpMagnets_rec with
  | h0 => simp [pairUpMagnets]
  | h1 a => simp [pairUpMagnets]
  | h2 a b rest ih =>
    obtain ⟨ih1, ih2, ih3⟩ := ih
    have hlen : (a :: b :: rest).length = rest.length + 2 := by simp
    have hdiv : (rest.length + 2) / 2 = rest.length / 2 + 1 :=
      Nat.add_div_right _ (by norm_num)
    refine ⟨?_, ?_, ?_⟩
    · simp [pairUpMagnets, ih1, hlen, hdiv]
    · have htake : 2 * ((rest.length + 2) / 2) = 2 * (rest.length / 2) + 2 := by
        rw [hdiv]; ring
      simp only [pairUpMagnets, hlen, htake, List.flatMap_cons, List.take_succ_cons]
      simpa using ih2
    · have hmod : (rest.length + 2) % 2 = rest.length % 2 := Nat.add_mod_right _ _
      simp only [pairUpMagnets, hlen, hmod]
      rcases rest with _ | ⟨c, t⟩
      · simp [pairUpMagnets]
      · rw [List.getLast?_cons_cons, List.getLast?_cons_cons]
        exact ih3

/-! ## C5 and C6: the flatten stage -/

theorem flatten_fst_some (raster : Nat → Nat) (env : FlattenEnv) (f : PdfDoc) :
    (flatten_pdf_in_place raster env (some f)).2 = false →
    (flatten_pdf_in_place raster env (some f)).1 = some f := by
  obtain ⟨o, r, s⟩ := env
  cases o <;> cases r <;> cases s <;>
    simp only [flatten_pdf_in_place] <;> split_ifs <;> simp

theorem flatten_success_shape (raster : Nat → Nat) (env : FlattenEnv) (f g : PdfDoc)
    (h : flatten_pdf_in_place raster env (some f) = (some g, true)) :
    g = { pages := f.pages.map raster, fileSize := f.pages.length + 1 } := by
  obtain ⟨o, r, s⟩ := env
  cases o <;> cases r <;> cases s <;>
    simp only [flatten_pdf_in_place] at h <;> split_ifs at h <;> simp_all

theorem flattenLoop_spec (raster : Nat → Nat) (envs : ℕ → FlattenEnv) :
    ∀ (files : List PdfDoc) (k : ℕ),
      (flattenLoop raster envs k files).1.length = files.length ∧
      ∀ i, i < files.length →
        (flatten_pdf_in_place raster (envs (k + i)) files[i]?).2 = false →
        ((flattenLoop raster envs k files).1)[i]? = files[i]? ∧
        (k + i) ∈ (flattenLoop raster envs k files).2
  | [], k => by simp [flattenLoop]
  | f :: rest, k => by
    obtain ⟨ih1, ih2⟩ := flattenLoop_spec raster envs rest (k + 1)
    constructor
    · simp [flattenLoop, ih1]
    · intro i hi hfail
      rcases i with _ | j
      · have hf : (flatten_pdf_in_place raster (envs k) (some f)).2 = false := by
          simpa using hfail
        have h1 : (flatten_pdf_in_place raster (envs k) (some f)).1 = some f :=
          flatten_fst_some raster (envs k) f hf
        constructor
        · simp [flattenLoop, h1]
        · simp [flattenLoop, hf]
      · have hj : j < rest.length := by simpa using hi
        have hsh : k + (j + 1) = (k + 1) + j := by omega
        have hfail2 : (flatten_pdf_in_place raster (envs ((k + 1) + j)) rest[j]?).2 = false := by
          rw [← hsh]
          simpa using hfail
        obtain ⟨hget, hmem⟩ := ih2 j hj hfail2
        constructor
        · simpa [flattenLoop] using hget
        · rw [hsh]
          simp only [flattenLoop]
          split
          · exact hmem
          · exact List.mem_cons_of_mem _ hmem

/-- C5: whenever a FlattenEach run fails at any step, the original page is
left unchanged (the flattened output only replaces it after verification);
the caller keeps every page in the batch (list length preserved), carries the
unflattened page forward at its position, and records the failed index in the
warning list instead of aborting. -/
theorem flatten_failure_is_non_destructive (raster : Nat → Nat)
    (envs : ℕ → FlattenEnv) (files : List PdfDoc) :
    (∀ env f g, flatten_pdf_in_place raster env (some f) = (some g, false) → g = f) ∧
    (flattenStage raster envs files).1.length = files.length ∧
    ∀ i, i < files.length →
      (flatten_pdf_in_place raster (envs i) files[i]?).2 = false →
      ((flattenStage raster envs files).1)[i]? = files[i]? ∧
      i ∈ (flattenStage raster envs files).2 := by
  obtain ⟨h1, h2⟩ := flattenLoop_spec raster envs files 0
  refine ⟨?_, h1, ?_⟩
  · intro env f g hfg
    have : (flatten_pdf_in_place raster env (some f)).1 = some f :=
      flatten_fst_some raster env f (by rw [hfg])
    rw [hfg] at this
    simpa using this
  · intro i hi hfail
    have := h2 i hi (by simpa using hfail)
    simpa [flattenStage] using this

/-- Witness for C5: in a concrete batch whose first page fails rasterization,
the first page survives unchanged in the continuing batch and its index is
logged. -/
theorem flatten_failure_is_non_destructive_witness :
    ((flattenStage id envsFx pdfFilesFx).1)[0]? = pdfFilesFx[0]? ∧
    0 ∈ (flattenStage id envsFx pdfFilesFx).2 :=
  (flatten_failure_is_non_destructive id envsFx pdfFilesFx).2.2 0 (by decide) (by decide)

/-- C6: a successful flatten always produces a document with exactly the
original page count, so a second successful flatten of the already-flattened
document also has the original page count (idempotence of flattening with
respect to page count). -/
theorem flatten_preserves_page_count (raster raster2 : Nat → Nat)
    (env env2 : FlattenEnv) (f g : PdfDoc)
    (h1 : flatten_pdf_in_place raster env (some f) = (some g, true)) :
    g.pages.length = f.pages.length ∧
    ∀ g2, flatten_pdf_in_place raster2 env2 (some g) = (some g2, true) →
      g2.pages.length = f.pages.length := by
  have hg := flatten_success_shape raster env f g h1
  have hlen : g.pages.length = f.pages.length := by rw [hg]; simp
  refine ⟨hlen, ?_⟩
  intro g2 h2
  have hg2 := flatten_success_shape raster2 env2 g g2 h2
  rw [hg2]
  simpa using hlen

/-- Witness for C6: flattening a concrete one-page document twice keeps its
page count equal to the original's both times. -/
theorem flatten_preserves_page_count_witness :
    flatFx1.pages.length = pdfFx1.pages.length ∧
    flatFx1.pages.length = pdfFx1.pages.length :=
  ⟨(flatten_preserves_page_count id id goodEnvFx goodEnvFx pdfFx1 flatFx1 (by decide)).1,
   (flatten_preserves_page_count id id goodEnvFx goodEnvFx pdfFx1 flatFx1 (by decide)).2
     flatFx1 (by decide)⟩

/-! ## C1 and C2: the merge stage -/

/-- C1: a completed merge produces a master whose page count equals the
number of source pages that passed the merge pre-validation, whatever other
requests failed earlier; and a mismatch between the written master's read-back
page count and the pages actually added makes the whole merge fail. -/
theorem master_page_count_matches_prevalidated (files : List SrcPdf)
    (writtenPageCount : ℕ) :
    (∀ r, merge_pdfs files writtenPageCount = some r →
      r.masterPages = (files.filter prevalidate_ok).length) ∧
    (writtenPageCount ≠ (files.filter prevalidate_ok).length →
      merge_pdfs files writtenPageCount = none) := by
  constructor
  · intro r h
    simp only [merge_pdfs] at h
    split at h
    · exact absurd h (by simp)
    · split at h
      · exact absurd h (by simp)
      · rename_i hcond
        have hr : r =
            { masterPages := writtenPageCount,
              duplicateFlagged :=
                duplicate_digest_scan ((files.filter prevalidate_ok).map SrcPdf.digest) } := by
          simpa using h.symm
        have hval : writtenPageCount = (files.filter prevalidate_ok).length := by omega
        rw [hr]
        exact hval
  · intro hne
    simp [merge_pdfs, hne]

/-- Witness for C1: with one valid and one missing source, the completed
merge reports one master page; a read-back of five pages is a fatal error. -/
theorem master_page_count_matches_prevalidated_witness :
    MergeResult.masterPages { masterPages := 1, duplicateFlagged := false } =
      (mergeFilesFx.filter prevalidate_ok).length ∧
    merge_pdfs mergeFilesFx 5 = none :=
  ⟨(master_page_count_matches_prevalidated mergeFilesFx 1).1
      { masterPages := 1, duplicateFlagged := false } (by decide),
   (master_page_count_matches_prevalidated mergeFilesFx 5).2 (by decide)⟩

/-- C2: when two different master page indices receive source pages with the
same content digest, the merge flags the duplicate but still completes and
returns success with the full page count; the run is not aborted. -/
theorem duplicate_digest_flagged_without_abort (files : List SrcPdf) (i j : ℕ)
    (hi : i < ((files.filter prevalidate_ok).map SrcPdf.digest).length)
    (hj : j < ((files.filter prevalidate_ok).map SrcPdf.digest).length)
    (hne : i ≠ j)
    (heq : ((files.filter prevalidate_ok).map SrcPdf.digest).get ⟨i, hi⟩ =
           ((files.filter prevalidate_ok).map SrcPdf.digest).get ⟨j, hj⟩) :
    merge_pdfs files (files.filter prevalidate_ok).length =
      some { masterPages := (files.filter prevalidate_ok).length,
             duplicateFlagged := true } := by
  have hnodup : ¬ ((files.filter prevalidate_ok).map SrcPdf.digest).Nodup := by
    rw [List.nodup_iff_injective_get]
    intro hinj
    exact hne (congrArg Fin.val (hinj heq))
  obtain ⟨x, hdup⟩ := List.exists_duplicate_iff_not_nodup.mpr hnodup
  have hcount : 2 ≤ ((files.filter prevalidate_ok).map SrcPdf.digest).count x :=
    List.duplicate_iff_two_le_count.mp hdup
  have hmem : x ∈ (files.filter prevalidate_ok).map SrcPdf.digest :=
    List.count_pos_iff.mp (by omega)
  have hscan : duplicate_digest_scan ((files.filter prevalidate_ok).map SrcPdf.digest) = true := by
    rw [duplicate_digest_scan, List.any_eq_true]
    exact ⟨x, hmem, by simpa using hcount⟩
  have hvne : (files.filter prevalidate_ok).isEmpty = false := by
    cases hc : files.filter prevalidate_ok with
    | nil => rw [hc] at hi; simp at hi
    | cons y ys => rfl
  simp [merge_pdfs, hvne, hscan]

/-- Witness for C2: two valid sources with identical digest 7 merge into a
two-page master with the duplicate flag raised. -/
theorem duplicate_digest_flagged_without_abort_witness :
    merge_pdfs dupFilesFx (dupFilesFx.filter prevalidate_ok).length =
      some { masterPages := (dupFilesFx.filter prevalidate_ok).length,
             duplicateFlagged := true } :=
  duplicate_digest_flagged_without_abort dupFilesFx 0 1 (by decide) (by decide)
    (by decide) (by decide)

/-! ## C8: arc layout glyph count and angular centering -/

theorem glyphAdvances_length {K : Type} [LinearOrderedField K] (kerning : K) :
    ∀ ws : List K, (glyphAdvances kerning ws).length = ws.length
  | [] => rfl
  | [_] => rfl
  | w1 :: w2 :: ws => by
    show ((w1 + kerning) :: glyphAdvances kerning (w2 :: ws)).length = (w1 :: w2 :: ws).length
    simp [glyphAdvances_length kerning (w2 :: ws)]

theorem boatGlyphLoop_length {K : Type} [LinearOrderedField K]
    (cosF sinF : K → K) (piK cx cy radius thetaStart : K) (outward : Bool) :
    ∀ (sCum : K) (advs : List K),
      (boatGlyphLoop cosF sinF piK cx cy radius thetaStart outward sCum advs).length =
        advs.length
  | _, [] => rfl
  | sCum, adv :: rest => by
    rw [boatGlyphLoop]
    simpa using
      boatGlyphLoop_length cosF sinF piK cx cy radius thetaStart outward (sCum + adv) rest

theorem magnetGlyphLoop_length {K : Type} [LinearOrderedField K]
    (cosF sinF : K → K) (piK cx cy radius xOff yOff thetaStart : K) (outward : Bool) :
    ∀ (i : ℕ) (sCum : K) (advs : List K),
      (magnetGlyphLoop cosF sinF piK cx cy radius xOff yOff thetaStart outward
        i sCum advs).length = advs.length
  | _, _, [] => rfl
  | i, sCum, adv :: rest => by
    rw [magnetGlyphLoop]
    simpa using
      magnetGlyphLoop_length cosF sinF piK cx cy radius xOff yOff thetaStart outward
        (i + 1) (sCum + adv) rest

/-- Counterexample for C8: the claim says both variants are angularly
centered on baseAngleDeg whenever the text length is at most the reference
length, but at length 10 the asymmetric character-pair variant shifts the
base angle by (10 - 5) * 0.5 = 2.5 degrees, so the covered span is centered
on 272.5 degrees instead of the base 270. -/
theorem c8_counterexample :
    (10 : ℕ) ≤ 16 ∧
    arcAngularCenter (draw_text_on_arc (K := ℝ) Real.cos Real.sin Real.pi
        (List.replicate 10 1) 0 0 0 600 270 false) ≠
      some (radiansK Real.pi 270) := by
  refine ⟨by norm_num, ?_⟩
  rw [draw_text_on_arc, if_neg (by norm_num)]
  simp only [List.length_replicate]
  norm_num [arcAngularCenter, radiansK]
  intro heq
  have h2 : ((270 : ℝ) + 5 * (1 / 2)) * Real.pi / 180 = 270 * Real.pi / 180 := by
    linarith
  have h3 : (5 / 2 : ℝ) * Real.pi = 0 := by
    field_simp at h2
    linarith
  rcases mul_eq_zero.mp h3 with h4 | h4
  · norm_num at h4
  · exact Real.pi_ne_zero h4

/-- C8 (amended): both arc variants place exactly one glyph per character;
the symmetric single-slot variant is angularly centered on baseAngleDeg for
every text length, while the asymmetric character-pair variant is centered on
baseAngleDeg only for texts of at most 6 characters (beyond that it applies
its length-based angle adjustment). -/
theorem arc_layout_count_and_centering {K : Type} [LinearOrderedField K]
    (cosF sinF : K → K) (piK : K) (widths : List K)
    (kerning cx cy radius angleDeg : K) (outward : Bool) (hr : 0 < radius) :
    arcGlyphCount (draw_boat_text_on_arc cosF sinF piK widths kerning cx cy radius
        angleDeg outward) = some widths.length ∧
    arcAngularCenter (draw_boat_text_on_arc cosF sinF piK widths kerning cx cy radius
        angleDeg outward) = some (radiansK piK angleDeg) ∧
    arcGlyphCount (draw_text_on_arc cosF sinF piK widths kerning cx cy radius
        angleDeg outward) = some widths.length ∧
    (widths.length ≤ 6 →
      arcAngularCenter (draw_text_on_arc cosF sinF piK widths kerning cx cy radius
          angleDeg outward) = some (radiansK piK angleDeg)) := by
  have hrn : ¬ radius ≤ 0 := not_le.mpr hr
  refine ⟨?_, ?_, ?_, ?_⟩
  · rw [draw_boat_text_on_arc, if_neg hrn]
    simp [arcGlyphCount, boatGlyphLoop_length, glyphAdvances_length]
  · rw [draw_boat_text_on_arc, if_neg hrn]
    simp only [arcAngularCenter]
    ring_nf
  · rw [draw_text_on_arc, if_neg hrn]
    simp [arcGlyphCount, magnetGlyphLoop_length, glyphAdvances_length]
  · intro hL
    have h10 : ¬ 10 < widths.length := by omega
    have h6 : ¬ 6 < widths.length := by omega
    rw [draw_text_on_arc, if_neg hrn]
    simp only [if_neg h10, if_neg h6, arcAngularCenter, add_zero]
    ring_nf

/-- Witness for C8 (amended): a concrete two-character layout over ℚ places
two glyphs in each variant and both spans are centered on the 90 degree base
angle. -/
theorem arc_layout_count_and_centering_witness :
    (0 : ℚ) < 600 ∧
    arcGlyphCount (draw_boat_text_on_arc (K := ℚ) id id (355 / 113) [1, 1] 0 0 0 600
        90 true) = some 2 ∧
    arcAngularCenter (draw_text_on_arc (K := ℚ) id id (355 / 113) [1, 1] 0 0 0 600
        90 true) = some (radiansK (355 / 113) 90) :=
  ⟨by norm_num,
   (arc_layout_count_and_centering id id (355 / 113) [1, 1] 0 0 0 600 90 true
      (by norm_num)).1,
   (arc_layout_count_and_centering id id (355 / 113) [1, 1] 0 0 0 600 90 true
      (by norm_num)).2.2.2 (by norm_num)⟩

/-! ## C9: archive move and bounded retention of master documents -/

theorem strLe_total : ∀ a b : FileName, strLe a b = true ∨ strLe b a = true
  | [], _ => Or.inl rfl
  | _ :: _, [] => Or.inr rfl
  | a :: as, b :: bs => by
    by_cases hab : a = b
    · subst hab
      rcases strLe_total as bs with h | h
      · left; simpa [strLe] using h
      · right; simpa [strLe] using h
    · rcases lt_or_gt_of_ne hab with h | h
      · left; simp [strLe, hab, h]
      · right
        have hba : b ≠ a := fun e => hab e.symm
        simp [strLe, hba, h]

theorem strLe_trans : ∀ a b c : FileName,
    strLe a b = true → strLe b c = true → strLe a c = true
  | [], _, _, _, _ => rfl
  | _ :: _, [], _, hab, _ => by simp [strLe] at hab
  | _ :: _, _ :: _, [], _, hbc => by simp [strLe] at hbc
  | a :: as, b :: bs, c :: cs, hab, hbc => by
    by_cases h1 : a = b <;> by_cases h2 : b = c
    · subst h1; subst h2
      simp only [strLe, if_pos rfl] at hab hbc ⊢
      exact strLe_trans as bs cs hab hbc
    · subst h1
      simp only [strLe, if_pos rfl, if_neg h2] at hbc ⊢
      exact hbc
    · subst h2
      simp only [strLe, if_pos rfl, if_neg h1] at hab ⊢
      exact hab
    · simp only [strLe, if_neg h1] at hab
      simp only [strLe, if_neg h2] at hbc
      have hac : a < c := lt_trans (of_decide_eq_true hab) (of_decide_eq_true hbc)
      have hne : a ≠ c := ne_of_lt hac
      simp [strLe, hne, hac]

instance : IsTotal FsFile newerEq := by
  constructor
  intro a b
  rcases Nat.lt_trichotomy a.mtime b.mtime with h | h | h
  · right; left; exact h
  · rcases strLe_total a.name b.name with hs | hs
    · right; right; exact ⟨h, hs⟩
    · left; right; exact ⟨h.symm, hs⟩
  · left; left; exact h

instance : IsTrans FsFile newerEq := by
  constructor
  intro a b c hab hbc
  rcases hab with h1 | ⟨h1, hs1⟩ <;> rcases hbc with h2 | ⟨h2, hs2⟩
  · left; omega
  · left; omega
  · left; omega
  · right; exact ⟨by omega, strLe_trans _ _ _ hs2 hs1⟩

theorem newerEq_mtime_le {a b : FsFile} (h : newerEq a b) : b.mtime ≤ a.mtime := by
  rcases h with h | ⟨h, _⟩ <;> omega

theorem archiveMove_names_nodup (cwd archive : List FsFile)
    (hc : (cwd.map FsFile.name).Nodup) (ha : (archive.map FsFile.name).Nodup) :
    (((archiveMoveStage cwd archive).2).map FsFile.name).Nodup := by
  simp only [archiveMoveStage]
  rw [List.map_append, List.nodup_append]
  refine ⟨?_, ?_, ?_⟩
  · exact List.Sublist.nodup (List.Sublist.map _ (List.filter_sublist archive)) ha
  · exact List.Sublist.nodup (List.Sublist.map _ (List.filter_sublist cwd)) hc
  · intro x hx1 hx2
    obtain ⟨a, haMem, haName⟩ := List.mem_map.mp hx1
    obtain ⟨m, hmMem, hmName⟩ := List.mem_map.mp hx2
    have hPa := (List.mem_filter.mp haMem).2
    have hany : (cwd.filter fun f => isBatchPdf f.name).any
        (fun mm => mm.name = a.name) = true :=
      List.any_eq_true.mpr ⟨m, hmMem, by simp [hmName, haName]⟩
    simp [hany] at hPa

theorem retention_keeps_newest (A : List FsFile) (hA : (A.map FsFile.name).Nodup) :
    ((retentionStage A).filter fun f => isMasterPdf f.name).length =
      min RETAIN_COUNT ((A.filter fun f => isMasterPdf f.name).length) ∧
    ∀ k ∈ retentionStage A, isMasterPdf k.name = true →
      ∀ d ∈ A, isMasterPdf d.name = true → d ∉ retentionStage A → d.mtime ≤ k.mtime := by
  have hS : sortedMasters A =
      List.insertionSort newerEq (A.filter fun f => isMasterPdf f.name) := rfl
  have hperm : (sortedMasters A).Perm (A.filter fun f => isMasterPdf f.name) := by
    rw [hS]; exact List.perm_insertionSort newerEq _
  have hsorted : List.Sorted newerEq (sortedMasters A) := by
    rw [hS]; exact List.sorted_insertionSort newerEq _
  have hMn : ((A.filter fun f => isMasterPdf f.name).map FsFile.name).Nodup :=
    List.Sublist.nodup (List.Sublist.map _ (List.filter_sublist A)) hA
  have hSn : ((sortedMasters A).map FsFile.name).Nodup :=
    hMn.perm (hperm.map FsFile.name).symm
  have hTD : (sortedMasters A).take RETAIN_COUNT ++ (sortedMasters A).drop RETAIN_COUNT =
      sortedMasters A := List.take_append_drop _ _
  have hR : retentionStage A = A.filter
      (fun f => !(((sortedMasters A).drop RETAIN_COUNT).any fun d => d.name = f.name)) := rfl
  have hdropP : ∀ d ∈ (sortedMasters A).drop RETAIN_COUNT,
      (!(((sortedMasters A).drop RETAIN_COUNT).any fun x => x.name = d.name)) = false := by
    intro d hd
    have hany : (((sortedMasters A).drop RETAIN_COUNT).any fun x => x.name = d.name) = true :=
      List.any_eq_true.mpr ⟨d, hd, by simp⟩
    simp [hany]
  have hdisj : ∀ t ∈ (sortedMasters A).take RETAIN_COUNT,
      ∀ d ∈ (sortedMasters A).drop RETAIN_COUNT, t.name ≠ d.name := by
    intro t ht d hd heq
    have hnd := hSn
    rw [← hTD, List.map_append, List.nodup_append] at hnd
    exact hnd.2.2 (List.mem_map.mpr ⟨t, ht, rfl⟩) (List.mem_map.mpr ⟨d, hd, heq.symm⟩)
  have htakeP : ∀ t ∈ (sortedMasters A).take RETAIN_COUNT,
      (!(((sortedMasters A).drop RETAIN_COUNT).any fun x => x.name = t.name)) = true := by
    intro t ht
    cases hb : ((sortedMasters A).drop RETAIN_COUNT).any fun x => x.name = t.name with
    | false => rfl
    | true =>
      exfalso
      obtain ⟨x, hx, hxe⟩ := List.any_eq_true.mp hb
      exact hdisj t ht x hx (of_decide_eq_true hxe).symm
  have hSfilter : ∀ P : FsFile → Bool,
      (∀ d ∈ (sortedMasters A).drop RETAIN_COUNT, P d = false) →
      (∀ t ∈ (sortedMasters A).take RETAIN_COUNT, P t = true) →
      (sortedMasters A).filter P = (sortedMasters A).take RETAIN_COUNT := by
    intro P hPd hPt
    conv_lhs => rw [← hTD]
    rw [List.filter_append]
    have h1 : ((sortedMasters A).take RETAIN_COUNT).filter P =
        (sortedMasters A).take RETAIN_COUNT := List.filter_eq_self.mpr hPt
    have h2 : ((sortedMasters A).drop RETAIN_COUNT).filter P = [] :=
      List.filter_eq_nil_iff.mpr fun a ha => by simp [hPd a ha]
    rw [h1, h2, List.append_nil]
  constructor
  · rw [hR, List.filter_filter]
    have hcomm : A.filter (fun f => isMasterPdf f.name &&
        !(((sortedMasters A).drop RETAIN_COUNT).any fun d => d.name = f.name)) =
        (A.filter fun f => isMasterPdf f.name).filter
          (fun f => !(((sortedMasters A).drop RETAIN_COUNT).any fun d => d.name = f.name)) := by
      rw [List.filter_filter]
      exact List.filter_congr fun a _ => by rw [Bool.and_comm]
    rw [hcomm]
    have hplen : ((A.filter fun f => isMasterPdf f.name).filter
        (fun f => !(((sortedMasters A).drop RETAIN_COUNT).any fun d => d.name = f.name))).length =
        ((sortedMasters A).filter
          (fun f => !(((sortedMasters A).drop RETAIN_COUNT).any fun d => d.name = f.name))).length :=
      (List.Perm.filter _ hperm).length_eq.symm
    rw [hplen,
      hSfilter (fun f => !(((sortedMasters A).drop RETAIN_COUNT).any fun d => d.name = f.name))
        hdropP htakeP,
      List.length_take, hperm.length_eq]
  · intro k hk hkM d hd hdM hdNot
    rw [hR] at hk
    obtain ⟨hkA, hkP⟩ := List.mem_filter.mp hk
    have hkS : k ∈ sortedMasters A :=
      hperm.mem_iff.mpr (List.mem_filter.mpr ⟨hkA, hkM⟩)
    have hkD : k ∉ (sortedMasters A).drop RETAIN_COUNT := by
      intro hmem
      rw [hdropP k hmem] at hkP
      exact Bool.false_ne_true hkP
    have hkT : k ∈ (sortedMasters A).take RETAIN_COUNT := by
      rcases List.mem_append.mp (hTD ▸ hkS) with h | h
      · exact h
      · exact absurd h hkD
    have hdS : d ∈ sortedMasters A :=
      hperm.mem_iff.mpr (List.mem_filter.mpr ⟨hd, hdM⟩)
    have hdP : (!(((sortedMasters A).drop RETAIN_COUNT).any fun x => x.name = d.name)) = false := by
      cases hb : (!(((sortedMasters A).drop RETAIN_COUNT).any fun x => x.name = d.name)) with
      | false => rfl
      | true => exact absurd (List.mem_filter.mpr ⟨hd, hb⟩) (hR ▸ hdNot)
    have hanyD : (((sortedMasters A).drop RETAIN_COUNT).any fun x => x.name = d.name) = true := by
      cases hb : ((sortedMasters A).drop RETAIN_COUNT).any fun x => x.name = d.name with
      | false => rw [hb] at hdP; simp at hdP
      | true => rfl
    obtain ⟨x, hxD, hxe⟩ := List.any_eq_true.mp hanyD
    have hxd : x = d := by
      have hxS : x ∈ sortedMasters A := by
        rw [← hTD]
        exact List.mem_append.mpr (Or.inr hxD)
      exact List.inj_on_of_nodup_map hSn hxS hdS (of_decide_eq_true hxe)
    have hdD : d ∈ (sortedMasters A).drop RETAIN_COUNT := hxd ▸ hxD
    have hpw : ∀ t ∈ (sortedMasters A).take RETAIN_COUNT,
        ∀ dd ∈ (sortedMasters A).drop RETAIN_COUNT, newerEq t dd := by
      have hp := hsorted
      rw [← hTD] at hp
      exact (List.pairwise_append.mp hp).2.2
    exact newerEq_mtime_le (hpw k hkT d hdD)

/-- C9: cleanup_old_pdfs first moves every per-order output document and the
master document of the working directory into the archive, then retains at
most the RETAIN_COUNT archived masters, and every retained master is at least
as recently modified as every deleted one. -/
theorem archive_retains_ten_newest_masters (cwd archive : List FsFile)
    (hc : (cwd.map FsFile.name).Nodup) (ha : (archive.map FsFile.name).Nodup) :
    ((cleanup_old_pdfs cwd archive).2.filter fun f => isMasterPdf f.name).length =
      min RETAIN_COUNT
        (((archiveMoveStage cwd archive).2.filter fun f => isMasterPdf f.name).length) ∧
    (∀ k ∈ (cleanup_old_pdfs cwd archive).2, isMasterPdf k.name = true →
      ∀ d ∈ (archiveMoveStage cwd archive).2, isMasterPdf d.name = true →
        d ∉ (cleanup_old_pdfs cwd archive).2 → d.mtime ≤ k.mtime) ∧
    ((cleanup_old_pdfs cwd archive).1.filter fun f => isBatchPdf f.name) = [] ∧
    (∀ f ∈ cwd, isBatchPdf f.name = true → f ∈ (archiveMoveStage cwd archive).2) := by
  have hA := archiveMove_names_nodup cwd archive hc ha
  have hmain := retention_keeps_newest (archiveMoveStage cwd archive).2 hA
  have hclean : cleanup_old_pdfs cwd archive =
      ((archiveMoveStage cwd archive).1, retentionStage (archiveMoveStage cwd archive).2) := rfl
  refine ⟨?_, ?_, ?_, ?_⟩
  · rw [hclean]
    exact hmain.1
  · rw [hclean]
    exact hmain.2
  · rw [hclean]
    simp only [archiveMoveStage]
    rw [List.filter_filter]
    apply List.filter_eq_nil_iff.mpr
    intro a _
    cases h : isBatchPdf a.name <;> simp [h]
  · intro f hf hb
    simp only [archiveMoveStage]
    exact List.mem_append.mpr (Or.inr (List.mem_filter.mpr ⟨hf, hb⟩))

/-- Witness for C9: a concrete working directory with one fresh master and one
order output, and an archive already holding ten masters, ends with exactly
ten retained masters (the minimum of the retention count and eleven). -/
theorem archive_retains_ten_newest_masters_witness :
    ((cleanup_old_pdfs cwdFx archiveFx).2.filter fun f => isMasterPdf f.name).length =
      min RETAIN_COUNT
        (((archiveMoveStage cwdFx archiveFx).2.filter fun f => isMasterPdf f.name).length) ∧
    ((cleanup_old_pdfs cwdFx archiveFx).1.filter fun f => isBatchPdf f.name) = [] :=
  ⟨(archive_retains_ten_newest_masters cwdFx archiveFx (by decide) (by decide)).1,
   (archive_retains_ten_newest_masters cwdFx archiveFx (by decide) (by decide)).2.2.1⟩
